import Mathlib

/-!
Formal model of the `DArray` growable double-ended array of `src/src/darray.h`
(a resizable array with a pool of reserved empty slots at the head of the
backing store, giving O(1) insertion at both ends).

Modelling conventions:
* `uint32_t` fields are modelled as `Nat` (the operations never rely on
  32-bit wrap-around; the header treats them as sizes/offsets).
* the C `double` parameters `expand_rate` and `max_pool_size` are modelled
  as `ℚ`.
* the `void **items` backing store is a `List (Option α)`, with `none` as
  the empty marker (`NULL`).
* fallible C functions return their `int` result code paired with the
  post-state; on error the post-state is the unchanged input, matching the
  C functions which leave the struct untouched on failure.  Allocation
  (`malloc`/`realloc`) is modelled as always succeeding, so `DA_ERR_MEMORY`
  never arises in the model.
-/

/-- General error class, from `enum darray_err_general` in `src/src/darray.h`. -/
def DA_ERR_MEMORY : Nat := 0x1

/-- General error class, from `enum darray_err_general` in `src/src/darray.h`. -/
def DA_ERR_ARGS : Nat := 0x2

/-- General error class, from `enum darray_err_general` in `src/src/darray.h`. -/
def DA_ERR_DATA : Nat := 0x3

/-- Detail code from `enum darray_err_init`. -/
def DA_INIT_LENGTH : Nat := 0x10

/-- Detail code from `enum darray_err_init`. -/
def DA_INIT_M_POOL_SIZE : Nat := 0x20

/-- Detail code from `enum darray_err_init`. -/
def DA_INIT_EXPAND_RATE : Nat := 0x30

/-- Detail code from `enum darray_err_init`. -/
def DA_INIT_POOL_SIZE : Nat := 0x40

/-- The dynamic array representation, from `struct DArray` in `src/src/darray.h`:
logical `length`, backing-store capacity `store_size`, offset `start_index` of
the first logical element, growth factor `expand_rate`, pool policy ratio
`max_pool_size`, and the backing store `items`. -/
structure DArray (α : Type) where
  length : Nat
  store_size : Nat
  start_index : Nat
  expand_rate : ℚ
  max_pool_size : ℚ
  items : List (Option α)
deriving DecidableEq, Repr

variable {α : Type}

/-- Contents of physical slot `j` of the backing store (`darray->items[j]`),
read defensively: slots beyond the end of the list read as empty. -/
def DArray.slot (d : DArray α) (j : Nat) : Option α := d.items.getD j none

/-- Modelled from the spec: `DArray_init_with_pool` (the implementation file
`darray.c` is not in the repository; only its header and tests are).
Behaviour follows spec §4 "Initialization" together with the reachable
assertions of `test_init_with_pool` / `test_init_without_pool`, which pin
`store_size` to the `length` argument, `start_index = pool_size`, logical
`length = 0` and all slots empty.  Argument checks follow the header's
parameter documentation (`max_pool_size` between 0 and 1, `expand_rate`
greater than 1, `pool_size` less than `length`) and spec §4
(`pool_size ≤ length / max_pool_size` when `max_pool_size > 0`, `pool_size = 0`
when `max_pool_size = 0`); `length = 0` is rejected per spec §3
("`store_size > 0` always").  `Except.ok` is success, `Except.error` carries
the C error code. -/
def DArray_init_with_pool (α : Type) (length : Nat) (max_pool_size expand_rate : ℚ)
    (pool_size : Nat) : Except Nat (DArray α) :=
  if length = 0 then .error (DA_ERR_ARGS ||| DA_INIT_LENGTH)
  else if max_pool_size < 0 ∨ 1 < max_pool_size then .error (DA_ERR_ARGS ||| DA_INIT_M_POOL_SIZE)
  else if expand_rate ≤ 1 then .error (DA_ERR_ARGS ||| DA_INIT_EXPAND_RATE)
  else if (if max_pool_size = 0 then pool_size ≠ 0
           else ((length : ℚ) / max_pool_size < (pool_size : ℚ) ∨ length ≤ pool_size)) then
    .error (DA_ERR_ARGS ||| DA_INIT_POOL_SIZE)
  else .ok { length := 0, store_size := length, start_index := pool_size,
             expand_rate := expand_rate, max_pool_size := max_pool_size,
             items := List.replicate length none }

/-- Modelled from the spec: `DArray_expand` grows `store_size` to
`floor(store_size * expand_rate)` but to at least `store_size + 1`
(spec §4: "at least `store_size+1` to guarantee progress"), keeping existing
slot contents and `start_index` and zero-filling the new tail slots.
Reallocation is modelled as always succeeding, so the result code is 0. -/
def DArray_expand (d : DArray α) : Nat × DArray α :=
  let s' := max (d.store_size + 1) (Rat.floor ((d.store_size : ℚ) * d.expand_rate)).toNat
  (0, { d with store_size := s',
               items := d.items ++ List.replicate (s' - d.store_size) none })

/-- Repeated expansion until the store holds at least `needed` slots
(spec §4, Move: "first call Expand (repeatedly if one expansion is
insufficient)"). -/
def expandUntil (d : DArray α) (needed : Nat) : DArray α :=
  if d.store_size < needed then expandUntil (DArray_expand d).2 needed else d
termination_by needed - d.store_size
decreasing_by
  simp only [DArray_expand]
  have := Nat.le_max_left (d.store_size + 1)
      (Rat.floor ((d.store_size : ℚ) * d.expand_rate)).toNat
  omega

/-- Modelled from the spec: `DArray_index` maps logical index `i` to physical
offset `start_index + i` and returns that slot's contents, or `NULL` when the
offset lies outside the backing store.  No check against `length` is
performed: the tests (`test_index_with_pool`) read slots beyond the logical
length and expect the raw slot contents. -/
def DArray_index (d : DArray α) (i : Nat) : Option α :=
  if d.start_index + i < d.store_size then d.slot (d.start_index + i) else none

/-- Modelled from the spec: `DArray_move` relocates the logical window
`[start_index, start_index+length)` by `dist` slots (positive toward the
tail), expanding the store first when the destination range would exceed it,
updating `start_index`, and clearing the vacated slots.  A negative move past
the head of the store is rejected with the array left unchanged
(`test_move_without_pool` asserts `start_index == 0` still holds after
`move(-1)` at `start_index == 0`).

`movePost` is the successful-relocation step with the non-negative
destination offset `t = start_index + dist` already computed: grow the store
until it holds `t + length` slots, place the `length` live elements at
`[t, t+length)` in order, clear the vacated old-window slots, and keep every
other slot. -/
def movePost (d : DArray α) (t : Nat) : DArray α :=
  let e := expandUntil d (t + d.length)
  { e with start_index := t,
           items := List.ofFn fun j : Fin e.store_size =>
             if t ≤ (j : Nat) ∧ (j : Nat) < t + d.length then
               e.slot (d.start_index + ((j : Nat) - t))
             else if d.start_index ≤ (j : Nat) ∧ (j : Nat) < d.start_index + d.length then
               none
             else e.slot (j : Nat) }

/-- The function `DArray_move` proper: reject a move past the head of the store, otherwise
relocate the window to `t = start_index + dist` via `movePost`. -/
def DArray_move (d : DArray α) (dist : Int) : Nat × DArray α :=
  if (d.start_index : Int) + dist < 0 then (DA_ERR_ARGS, d)
  else (0, movePost d ((d.start_index : Int) + dist).toNat)

/-- Modelled from the spec: `DArray_push` appends at logical index `length`
(physical offset `start_index + length`), first expanding when the store is
full at the tail, then incrementing `length`. -/
def DArray_push (d : DArray α) (v : α) : Nat × DArray α :=
  let e := if d.start_index + d.length = d.store_size then (DArray_expand d).2 else d
  (0, { e with items := e.items.set (e.start_index + e.length) (some v),
               length := e.length + 1 })

/-- Modelled from the spec: `DArray_pop` removes and returns the element at
logical index `length - 1`, clearing its slot; on an empty array it returns
the empty marker and leaves the array unchanged (no underflow of `length`). -/
def DArray_pop (d : DArray α) : Option α × DArray α :=
  if d.length = 0 then (none, d)
  else (d.slot (d.start_index + d.length - 1),
        { d with items := d.items.set (d.start_index + d.length - 1) none,
                 length := d.length - 1 })

/-- Modelled from the spec: `DArray_unshift` prepends at logical index 0.
When `start_index = 0` the window is first moved toward the tail to recreate
a head pool: distance exactly 1 when `max_pool_size = 0`, otherwise enough
slots that the pool/length ratio stays at `max_pool_size` after the
insertion.  Otherwise the O(1) fast path decrements `start_index` and writes
the value there.  `length` is incremented.

`unshiftWrite` is the final O(1) write step: claim the pool slot before the
window and store the value there. -/
def unshiftWrite (e : DArray α) (v : α) : DArray α :=
  { e with start_index := e.start_index - 1,
           items := e.items.set (e.start_index - 1) (some v),
           length := e.length + 1 }

/-- The function `DArray_unshift` proper: recreate a head pool by a positive move when
none is left, then claim a pool slot via `unshiftWrite`. -/
def DArray_unshift (d : DArray α) (v : α) : Nat × DArray α :=
  let e := if d.start_index = 0 then
      (DArray_move d ((if d.max_pool_size = 0 then 1
        else (Rat.ceil (d.max_pool_size * ((d.length : ℚ) + 1))).toNat + 1 : Nat) : Int)).2
    else d
  (0, unshiftWrite e v)

/-- Modelled from the spec: `DArray_shift` removes and returns the element at
logical index 0.  On an empty array it returns the empty marker and a
non-zero result code, leaving the array unchanged.  Otherwise it clears the
slot at `start_index`, increments `start_index` and decrements `length`; if
the resulting head-pool/length ratio exceeds `max_pool_size`, it compacts the
window back toward offset 0 with a negative move so the pool is within
policy (target pool `floor(max_pool_size * length)`).

`shiftRemove` is the O(1) removal step: clear the slot at `start_index`,
advance `start_index`, decrement `length` (growing the head pool by one). -/
def shiftRemove (d : DArray α) : DArray α :=
  { d with items := d.items.set d.start_index none,
           start_index := d.start_index + 1,
           length := d.length - 1 }

/-- The function `DArray_shift` proper: remove the head element via `shiftRemove`, then
compact with a negative move when the head pool has outgrown
`max_pool_size`. -/
def DArray_shift (d : DArray α) : Option α × Nat × DArray α :=
  if d.length = 0 then (none, DA_ERR_ARGS, d)
  else
    let v := d.slot d.start_index
    let d1 := shiftRemove d
    if (d1.start_index : ℚ) ≤ d.max_pool_size * (d1.length : ℚ) then (v, 0, d1)
    else
      let p : Nat := (Rat.floor (d.max_pool_size * (d1.length : ℚ))).toNat
      let m := DArray_move d1 ((p : Int) - (d1.start_index : Int))
      (v, m.1, m.2)

/-- The structural invariant of spec §3: the backing store has exactly
`store_size` slots, the logical window `[start_index, start_index+length)`
fits inside it, and every slot outside the window holds the empty marker. -/
def DInv (d : DArray α) : Prop :=
  d.items.length = d.store_size ∧
  d.start_index + d.length ≤ d.store_size ∧
  ∀ j, (j < d.start_index ∨ d.start_index + d.length ≤ j) → d.slot j = none

/-- States reachable from a successful `DArray_init_with_pool` by successful
operations (`DArray_index` reads without mutating, so it is omitted;
`DArray_pop` returns no result code, so every pop step is included — on an
empty array it leaves the state unchanged). -/
inductive Reach : DArray α → Prop where
  | init (len : Nat) (mps er : ℚ) (ps : Nat) (d : DArray α) :
      DArray_init_with_pool α len mps er ps = Except.ok d → Reach d
  | expand (d : DArray α) : Reach d → Reach (DArray_expand d).2
  | move (d : DArray α) (dist : Int) : Reach d → (DArray_move d dist).1 = 0 →
      Reach (DArray_move d dist).2
  | push (d : DArray α) (v : α) : Reach d → (DArray_push d v).1 = 0 →
      Reach (DArray_push d v).2
  | pop (d : DArray α) : Reach d → Reach (DArray_pop d).2
  | unshift (d : DArray α) (v : α) : Reach d → (DArray_unshift d v).1 = 0 →
      Reach (DArray_unshift d v).2
  | shift (d : DArray α) : Reach d → (DArray_shift d).2.1 = 0 →
      Reach (DArray_shift d).2.2

/-- The state produced by `DArray_init_with_pool(10, 0.3, 1.5, 2)`, the
configuration of `test_init_with_pool`. -/
def dInit : DArray Nat :=
  { length := 0, store_size := 10, start_index := 2, expand_rate := 3/2,
    max_pool_size := 3/10, items := List.replicate 10 none }

/-- The state produced by `DArray_init_with_pool(10, 0.3, 1.5, 3)`, the
configuration of `test_unshift_with_pool`. -/
def dPool3 : DArray Nat :=
  { length := 0, store_size := 10, start_index := 3, expand_rate := 3/2,
    max_pool_size := 3/10, items := List.replicate 10 none }

/-- The state produced by `DArray_init_with_pool(10, 0.1, 1.5, 2)`, the
configuration of `test_pop` and `test_shift_with_pool`. -/
def dPush : DArray Nat :=
  { length := 0, store_size := 10, start_index := 2, expand_rate := 3/2,
    max_pool_size := 1/10, items := List.replicate 10 none }

/-- The 3-element state of `test_move_with_pool`: values at physical offsets
2, 3, 4 with `start_index = 2`. -/
def dMove : DArray Nat :=
  { length := 3, store_size := 10, start_index := 2, expand_rate := 3/2,
    max_pool_size := 1/10,
    items := [none, none, some 100, some 200, some 300,
              none, none, none, none, none] }

/-- The 3-element state of `test_move_without_pool`: values at physical
offsets 0, 1, 2 with `start_index = 0` and no pool. -/
def dNoPool : DArray Nat :=
  { length := 3, store_size := 10, start_index := 0, expand_rate := 3/2,
    max_pool_size := 0,
    items := [some 100, some 200, some 300, none, none,
              none, none, none, none, none] }

/-- A well-formed one-slot array with `expand_rate = 1.5`: the smallest store
on which a single multiplication-then-truncation makes no progress. -/
def dTiny : DArray Nat :=
  { length := 0, store_size := 1, start_index := 0, expand_rate := 3/2,
    max_pool_size := 0, items := [none] }

/-! ### Pointwise lemmas about backing-store reads -/

theorem getD_set_self (l : List (Option α)) (i : Nat) (x : Option α) (h : i < l.length) :
    (l.set i x).getD i none = x := by
  rw [List.getD_eq_getElem _ _ (by simpa using h)]
  simp

theorem getD_set_ne (l : List (Option α)) (i j : Nat) (x : Option α) (h : i ≠ j) :
    (l.set i x).getD j none = l.getD j none := by
  rcases Nat.lt_or_ge j l.length with hj | hj
  · rw [List.getD_eq_getElem _ _ (by simpa using hj), List.getD_eq_getElem _ _ hj]
    rw [List.getElem_set_ne h]
  · rw [List.getD_eq_default _ _ (by simpa using hj), List.getD_eq_default _ _ hj]

theorem getD_replicate_none (r n : Nat) :
    (List.replicate r (none : Option α)).getD n none = none := by
  rcases Nat.lt_or_ge n r with h | h
  · rw [List.getD_eq_getElem _ _ (by simpa using h)]
    simp
  · rw [List.getD_eq_default _ _ (by simpa using h)]

theorem getD_ofFn (n : Nat) (f : Fin n → Option α) (j : Nat) :
    (List.ofFn f).getD j none = if h : j < n then f ⟨j, h⟩ else none := by
  by_cases h : j < n
  · rw [dif_pos h, List.getD_eq_getElem _ _ (by simpa using h)]
    simp
  · rw [dif_neg h, List.getD_eq_default _ _ (by simpa using Nat.ge_of_not_lt h)]

theorem slot_default (d : DArray α) (j : Nat) (h : d.items.length ≤ j) : d.slot j = none :=
  List.getD_eq_default _ _ h

/-! ### Lemmas about `DArray_expand` -/

theorem expand_code (d : DArray α) : (DArray_expand d).1 = 0 := rfl

theorem expand_store_size (d : DArray α) :
    (DArray_expand d).2.store_size
      = max (d.store_size + 1) (Rat.floor ((d.store_size : ℚ) * d.expand_rate)).toNat := rfl

theorem expand_store_lt (d : DArray α) : d.store_size < (DArray_expand d).2.store_size :=
  Nat.lt_of_lt_of_le (Nat.lt_succ_self _) (Nat.le_max_left _ _)

theorem expand_start (d : DArray α) : (DArray_expand d).2.start_index = d.start_index := rfl

theorem expand_length (d : DArray α) : (DArray_expand d).2.length = d.length := rfl

theorem expand_rate_eq (d : DArray α) : (DArray_expand d).2.expand_rate = d.expand_rate := rfl

theorem expand_mps_eq (d : DArray α) : (DArray_expand d).2.max_pool_size = d.max_pool_size := rfl

theorem expand_items_length (d : DArray α) (h : d.items.length = d.store_size) :
    (DArray_expand d).2.items.length = (DArray_expand d).2.store_size := by
  have hm := expand_store_lt d
  simp only [DArray_expand] at hm ⊢
  simp only [List.length_append, List.length_replicate]
  omega

theorem expand_slot_lt (d : DArray α) (h : d.items.length = d.store_size) (j : Nat)
    (hj : j < d.store_size) : (DArray_expand d).2.slot j = d.slot j := by
  simp only [DArray_expand, DArray.slot]
  exact List.getD_append _ _ _ _ (by omega)

theorem expand_slot_ge (d : DArray α) (h : d.items.length = d.store_size) (j : Nat)
    (hj : d.store_size ≤ j) : (DArray_expand d).2.slot j = none := by
  simp only [DArray_expand, DArray.slot]
  rw [List.getD_append_right _ _ _ _ (by omega)]
  exact getD_replicate_none _ _

/-! ### Lemmas about `expandUntil` -/

theorem expandUntil_stop (d : DArray α) (n : Nat) (h : ¬ d.store_size < n) :
    expandUntil d n = d := by
  rw [expandUntil, if_neg h]

theorem expandUntil_step (d : DArray α) (n : Nat) (h : d.store_size < n) :
    expandUntil d n = expandUntil (DArray_expand d).2 n := by
  rw [expandUntil, if_pos h]

theorem expandUntil_spec (k : Nat) : ∀ (n : Nat) (d : DArray α), n - d.store_size ≤ k →
    ((expandUntil d n).start_index = d.start_index ∧
     (expandUntil d n).length = d.length ∧
     (expandUntil d n).expand_rate = d.expand_rate ∧
     (expandUntil d n).max_pool_size = d.max_pool_size ∧
     d.store_size ≤ (expandUntil d n).store_size ∧
     n ≤ (expandUntil d n).store_size ∧
     (d.items.length = d.store_size →
       ((expandUntil d n).items.length = (expandUntil d n).store_size ∧
        (∀ j, j < d.store_size → (expandUntil d n).slot j = d.slot j) ∧
        (∀ j, d.store_size ≤ j → (expandUntil d n).slot j = none)))) := by
  induction k with
  | zero =>
    intro n d hk
    rw [expandUntil_stop d n (by omega)]
    exact ⟨rfl, rfl, rfl, rfl, Nat.le_refl _, by omega,
      fun hl => ⟨hl, fun j _ => rfl, fun j hj => slot_default d j (by omega)⟩⟩
  | succ k ih =>
    intro n d hk
    by_cases hlt : d.store_size < n
    · rw [expandUntil_step d n hlt]
      have hst := expand_store_lt d
      have IH := ih n (DArray_expand d).2 (by omega)
      obtain ⟨a1, a2, a3, a4, a5, a6, a7⟩ := IH
      refine ⟨a1.trans (expand_start d), a2.trans (expand_length d),
        a3.trans (expand_rate_eq d), a4.trans (expand_mps_eq d), by omega, a6, ?_⟩
      intro hl
      obtain ⟨b1, b2, b3⟩ := a7 (expand_items_length d hl)
      refine ⟨b1, ?_, ?_⟩
      · intro j hj
        rw [b2 j (by omega), expand_slot_lt d hl j hj]
      · intro j hj
        rcases Nat.lt_or_ge j (DArray_expand d).2.store_size with hj2 | hj2
        · rw [b2 j hj2, expand_slot_ge d hl j hj]
        · exact b3 j hj2
    · rw [expandUntil_stop d n hlt]
      exact ⟨rfl, rfl, rfl, rfl, Nat.le_refl _, by omega,
        fun hl => ⟨hl, fun j _ => rfl, fun j hj => slot_default d j (by omega)⟩⟩

theorem expandUntil_props (d : DArray α) (n : Nat) :
    ((expandUntil d n).start_index = d.start_index ∧
     (expandUntil d n).length = d.length ∧
     (expandUntil d n).expand_rate = d.expand_rate ∧
     (expandUntil d n).max_pool_size = d.max_pool_size ∧
     d.store_size ≤ (expandUntil d n).store_size ∧
     n ≤ (expandUntil d n).store_size ∧
     (d.items.length = d.store_size →
       ((expandUntil d n).items.length = (expandUntil d n).store_size ∧
        (∀ j, j < d.store_size → (expandUntil d n).slot j = d.slot j) ∧
        (∀ j, d.store_size ≤ j → (expandUntil d n).slot j = none)))) :=
  expandUntil_spec (n - d.store_size) n d (Nat.le_refl _)

/-! ### Lemmas about `movePost` and `DArray_move` -/

theorem movePost_slot_char (d : DArray α) (t : Nat) (j : Nat) :
    (movePost d t).slot j =
      if j < (expandUntil d (t + d.length)).store_size then
        (if t ≤ j ∧ j < t + d.length then
          (expandUntil d (t + d.length)).slot (d.start_index + (j - t))
         else if d.start_index ≤ j ∧ j < d.start_index + d.length then none
         else (expandUntil d (t + d.length)).slot j)
      else none := by
  simp only [movePost, DArray.slot]
  rw [getD_ofFn]
  by_cases h : j < (expandUntil d (t + d.length)).store_size
  · rw [dif_pos h, if_pos h]
  · rw [dif_neg h, if_neg h]

theorem movePost_spec (d : DArray α) (t : Nat) (hlen : d.items.length = d.store_size) :
    (movePost d t).start_index = t ∧
    (movePost d t).length = d.length ∧
    (movePost d t).expand_rate = d.expand_rate ∧
    (movePost d t).max_pool_size = d.max_pool_size ∧
    (movePost d t).items.length = (movePost d t).store_size ∧
    d.store_size ≤ (movePost d t).store_size ∧
    t + d.length ≤ (movePost d t).store_size ∧
    (∀ i, i < d.length → (movePost d t).slot (t + i) = d.slot (d.start_index + i)) ∧
    (∀ j, j < t ∨ t + d.length ≤ j →
      (movePost d t).slot j =
        if d.start_index ≤ j ∧ j < d.start_index + d.length then none else d.slot j) := by
  obtain ⟨e1, e2, e3, e4, e5, e6, e7⟩ := expandUntil_props d (t + d.length)
  obtain ⟨f1, f2, f3⟩ := e7 hlen
  have hsl : ∀ j, d.store_size ≤ j → d.slot j = none := fun j hj =>
    slot_default d j (by omega)
  refine ⟨rfl, e2, e3, e4, ?_, e5, e6, ?_, ?_⟩
  · simp only [movePost]
    rw [List.length_ofFn]
  · intro i hi
    rw [movePost_slot_char, if_pos (by omega), if_pos (by omega)]
    have hsub : t + i - t = i := by omega
    rw [hsub]
    rcases Nat.lt_or_ge (d.start_index + i) d.store_size with hc | hc
    · exact f2 _ hc
    · rw [f3 _ hc, hsl _ hc]
  · intro j hj
    rcases Nat.lt_or_ge j (expandUntil d (t + d.length)).store_size with hc | hc
    · rw [movePost_slot_char, if_pos hc, if_neg (by omega)]
      by_cases hin : d.start_index ≤ j ∧ j < d.start_index + d.length
      · rw [if_pos hin, if_pos hin]
      · rw [if_neg hin, if_neg hin]
        rcases Nat.lt_or_ge j d.store_size with hc2 | hc2
        · exact f2 _ hc2
        · rw [f3 _ hc2, hsl _ hc2]
    · rw [movePost_slot_char, if_neg (by omega)]
      by_cases hin : d.start_index ≤ j ∧ j < d.start_index + d.length
      · rw [if_pos hin]
      · rw [if_neg hin, hsl _ (by omega)]

/-- Relocating the window preserves the structural invariant, whatever the
destination offset. -/
theorem movePost_DInv (d : DArray α) (t : Nat) (hInv : DInv d) : DInv (movePost d t) := by
  obtain ⟨h1, h2, h3⟩ := hInv
  obtain ⟨m1, m2, m3, m4, m5, m6, m7, m8, m9⟩ := movePost_spec d t h1
  refine ⟨m5, ?_, ?_⟩
  · rw [m1, m2]
    exact m7
  · intro j hj
    rw [m1, m2] at hj
    rw [m9 j hj]
    by_cases hin : d.start_index ≤ j ∧ j < d.start_index + d.length
    · rw [if_pos hin]
    · rw [if_neg hin, h3 j (by omega)]

theorem DArray_move_reject (d : DArray α) (dist : Int)
    (h : (d.start_index : Int) + dist < 0) : DArray_move d dist = (DA_ERR_ARGS, d) := by
  rw [DArray_move, if_pos h]

theorem DArray_move_ok (d : DArray α) (dist : Int) (h : 0 ≤ (d.start_index : Int) + dist) :
    DArray_move d dist = (0, movePost d ((d.start_index : Int) + dist).toNat) := by
  rw [DArray_move, if_neg (not_lt.mpr h)]

/-! ### Lemmas about `DArray_init_with_pool` -/

theorem init_ok (len : Nat) (mps er : ℚ) (ps : Nat) (d : DArray α)
    (h : DArray_init_with_pool α len mps er ps = Except.ok d) :
    d = { length := 0, store_size := len, start_index := ps, expand_rate := er,
          max_pool_size := mps, items := List.replicate len none } ∧
    0 < len ∧ ps < len ∧ 0 ≤ mps ∧ mps ≤ 1 ∧ 1 < er := by
  unfold DArray_init_with_pool at h
  by_cases h1 : len = 0
  · rw [if_pos h1] at h
    cases h
  rw [if_neg h1] at h
  by_cases h2 : mps < 0 ∨ 1 < mps
  · rw [if_pos h2] at h
    cases h
  rw [if_neg h2] at h
  by_cases h3 : er ≤ 1
  · rw [if_pos h3] at h
    cases h
  rw [if_neg h3] at h
  by_cases h4 : (if mps = 0 then ps ≠ 0 else ((len : ℚ) / mps < (ps : ℚ) ∨ len ≤ ps))
  · rw [if_pos h4] at h
    cases h
  rw [if_neg h4] at h
  rw [Except.ok.injEq] at h
  push_neg at h2
  refine ⟨h.symm, by omega, ?_, h2.1, h2.2, not_le.mp h3⟩
  by_cases hm : mps = 0
  · rw [if_pos hm] at h4
    push_neg at h4
    omega
  · rw [if_neg hm] at h4
    push_neg at h4
    exact h4.2

/-- A successfully constructed array satisfies the structural invariant. -/
theorem init_DInv (len : Nat) (mps er : ℚ) (ps : Nat) (d : DArray α)
    (h : DArray_init_with_pool α len mps er ps = Except.ok d) : DInv d := by
  obtain ⟨hd, hlen, hps, _⟩ := init_ok len mps er ps d h
  subst hd
  refine ⟨by simp, by simp; omega, ?_⟩
  intro j _
  exact getD_replicate_none _ _

/-! ### Lemmas about `DArray_push` and `DArray_pop` -/

theorem push_eq_full (d : DArray α) (v : α) (hfull : d.start_index + d.length = d.store_size) :
    DArray_push d v =
      (0, { (DArray_expand d).2 with
            items := (DArray_expand d).2.items.set (d.start_index + d.length) (some v),
            length := d.length + 1 }) := by
  simp only [DArray_push, if_pos hfull]
  rfl

theorem push_eq_avail (d : DArray α) (v : α) (hav : ¬ d.start_index + d.length = d.store_size) :
    DArray_push d v =
      (0, { d with items := d.items.set (d.start_index + d.length) (some v),
                   length := d.length + 1 }) := by
  simp only [DArray_push, if_neg hav]

theorem push_spec (d : DArray α) (v : α) (hInv : DInv d) :
    (DArray_push d v).1 = 0 ∧
    (DArray_push d v).2.length = d.length + 1 ∧
    (DArray_push d v).2.start_index = d.start_index ∧
    (DArray_push d v).2.expand_rate = d.expand_rate ∧
    (DArray_push d v).2.max_pool_size = d.max_pool_size ∧
    DInv (DArray_push d v).2 ∧
    (DArray_push d v).2.slot (d.start_index + d.length) = some v ∧
    (∀ j, j < d.start_index + d.length → (DArray_push d v).2.slot j = d.slot j) := by
  obtain ⟨h1, h2, h3⟩ := hInv
  by_cases hfull : d.start_index + d.length = d.store_size
  · rw [push_eq_full d v hfull]
    have hel := expand_items_length d h1
    have hst := expand_store_lt d
    refine ⟨rfl, rfl, rfl, rfl, rfl, ⟨?_, ?_, ?_⟩, ?_, ?_⟩
    · show ((DArray_expand d).2.items.set (d.start_index + d.length) (some v)).length
        = (DArray_expand d).2.store_size
      rw [List.length_set]
      exact hel
    · show d.start_index + (d.length + 1) ≤ (DArray_expand d).2.store_size
      omega
    · show ∀ j, (j < d.start_index ∨ d.start_index + (d.length + 1) ≤ j) →
        ((DArray_expand d).2.items.set (d.start_index + d.length) (some v)).getD j none = none
      intro j hj
      rw [getD_set_ne _ _ _ _ (by omega)]
      rcases Nat.lt_or_ge j d.store_size with hc | hc
      · show (DArray_expand d).2.slot j = none
        rw [expand_slot_lt d h1 j hc]
        exact h3 j (by omega)
      · exact expand_slot_ge d h1 j hc
    · show ((DArray_expand d).2.items.set (d.start_index + d.length) (some v)).getD
        (d.start_index + d.length) none = some v
      exact getD_set_self _ _ _ (by omega)
    · intro j hj
      show ((DArray_expand d).2.items.set (d.start_index + d.length) (some v)).getD j none
        = d.slot j
      rw [getD_set_ne _ _ _ _ (by omega)]
      exact expand_slot_lt d h1 j (by omega)
  · rw [push_eq_avail d v hfull]
    have hidx : d.start_index + d.length < d.items.length := by omega
    refine ⟨rfl, rfl, rfl, rfl, rfl, ⟨?_, ?_, ?_⟩, ?_, ?_⟩
    · show (d.items.set (d.start_index + d.length) (some v)).length = d.store_size
      rw [List.length_set]
      exact h1
    · show d.start_index + (d.length + 1) ≤ d.store_size
      omega
    · show ∀ j, (j < d.start_index ∨ d.start_index + (d.length + 1) ≤ j) →
        (d.items.set (d.start_index + d.length) (some v)).getD j none = none
      intro j hj
      rw [getD_set_ne _ _ _ _ (by omega)]
      exact h3 j (by omega)
    · show (d.items.set (d.start_index + d.length) (some v)).getD
        (d.start_index + d.length) none = some v
      exact getD_set_self _ _ _ hidx
    · intro j hj
      show (d.items.set (d.start_index + d.length) (some v)).getD j none = d.slot j
      rw [getD_set_ne _ _ _ _ (by omega)]
      rfl

theorem pop_empty (d : DArray α) (h : d.length = 0) : DArray_pop d = (none, d) := by
  rw [DArray_pop, if_pos h]

theorem pop_eq (d : DArray α) (h : ¬ d.length = 0) :
    DArray_pop d = (d.slot (d.start_index + d.length - 1),
      { d with items := d.items.set (d.start_index + d.length - 1) none,
               length := d.length - 1 }) := by
  rw [DArray_pop, if_neg h]

theorem pop_spec (d : DArray α) (h : ¬ d.length = 0) (hInv : DInv d) :
    (DArray_pop d).1 = d.slot (d.start_index + d.length - 1) ∧
    (DArray_pop d).2.length = d.length - 1 ∧
    (DArray_pop d).2.start_index = d.start_index ∧
    (DArray_pop d).2.expand_rate = d.expand_rate ∧
    (DArray_pop d).2.max_pool_size = d.max_pool_size ∧
    DInv (DArray_pop d).2 ∧
    (∀ j, j < d.start_index + d.length - 1 → (DArray_pop d).2.slot j = d.slot j) := by
  obtain ⟨h1, h2, h3⟩ := hInv
  rw [pop_eq d h]
  refine ⟨rfl, rfl, rfl, rfl, rfl, ⟨?_, ?_, ?_⟩, ?_⟩
  · show (d.items.set (d.start_index + d.length - 1) none).length = d.store_size
    rw [List.length_set]
    exact h1
  · show d.start_index + (d.length - 1) ≤ d.store_size
    omega
  · show ∀ j, (j < d.start_index ∨ d.start_index + (d.length - 1) ≤ j) →
      (d.items.set (d.start_index + d.length - 1) none).getD j none = none
    intro j hj
    by_cases hje : j = d.start_index + d.length - 1
    · subst hje
      exact getD_set_self _ _ _ (by omega)
    · rw [getD_set_ne _ _ _ _ (Ne.symm hje)]
      exact h3 j (by omega)
  · intro j hj
    show (d.items.set (d.start_index + d.length - 1) none).getD j none = d.slot j
    rw [getD_set_ne _ _ _ _ (by omega)]
    rfl

/-! ### Lemmas about `DArray_unshift` -/

theorem unshiftWrite_spec (e : DArray α) (v : α) (hs : 1 ≤ e.start_index) (hInv : DInv e) :
    DInv (unshiftWrite e v) ∧
    (unshiftWrite e v).start_index = e.start_index - 1 ∧
    (unshiftWrite e v).length = e.length + 1 ∧
    (unshiftWrite e v).expand_rate = e.expand_rate ∧
    (unshiftWrite e v).max_pool_size = e.max_pool_size ∧
    (unshiftWrite e v).slot (e.start_index - 1) = some v ∧
    (∀ j, e.start_index ≤ j → (unshiftWrite e v).slot j = e.slot j) := by
  obtain ⟨h1, h2, h3⟩ := hInv
  refine ⟨⟨?_, ?_, ?_⟩, rfl, rfl, rfl, rfl, ?_, ?_⟩
  · show (e.items.set (e.start_index - 1) (some v)).length = e.store_size
    rw [List.length_set]
    exact h1
  · show e.start_index - 1 + (e.length + 1) ≤ e.store_size
    omega
  · show ∀ j, (j < e.start_index - 1 ∨ e.start_index - 1 + (e.length + 1) ≤ j) →
      (e.items.set (e.start_index - 1) (some v)).getD j none = none
    intro j hj
    rw [getD_set_ne _ _ _ _ (by omega)]
    exact h3 j (by omega)
  · show (e.items.set (e.start_index - 1) (some v)).getD (e.start_index - 1) none = some v
    exact getD_set_self _ _ _ (by omega)
  · intro j hj
    show (e.items.set (e.start_index - 1) (some v)).getD j none = e.slot j
    rw [getD_set_ne _ _ _ _ (by omega)]
    rfl

theorem unshift_eq_pool (d : DArray α) (v : α) (hs : ¬ d.start_index = 0) :
    DArray_unshift d v = (0, unshiftWrite d v) := by
  simp only [DArray_unshift, if_neg hs]

theorem unshift_eq_nopool (d : DArray α) (v : α) (hs : d.start_index = 0) :
    DArray_unshift d v =
      (0, unshiftWrite ((DArray_move d ((if d.max_pool_size = 0 then 1
        else (Rat.ceil (d.max_pool_size * ((d.length : ℚ) + 1))).toNat + 1 : Nat) : Int)).2) v) := by
  simp only [DArray_unshift, if_pos hs]

theorem unshift_spec (d : DArray α) (v : α) (hInv : DInv d) :
    (DArray_unshift d v).1 = 0 ∧
    (DArray_unshift d v).2.length = d.length + 1 ∧
    (DArray_unshift d v).2.expand_rate = d.expand_rate ∧
    (DArray_unshift d v).2.max_pool_size = d.max_pool_size ∧
    DInv (DArray_unshift d v).2 ∧
    (DArray_unshift d v).2.slot ((DArray_unshift d v).2.start_index) = some v ∧
    (∀ i, i < d.length →
      (DArray_unshift d v).2.slot ((DArray_unshift d v).2.start_index + 1 + i)
        = d.slot (d.start_index + i)) := by
  by_cases hs : d.start_index = 0
  · rw [unshift_eq_nopool d v hs]
    set t : Nat := (if d.max_pool_size = 0 then 1
      else (Rat.ceil (d.max_pool_size * ((d.length : ℚ) + 1))).toNat + 1) with ht
    have ht1 : 1 ≤ t := by
      rw [ht]
      split <;> omega
    have htn : ((d.start_index : Int) + (t : Int)).toNat = t := by
      rw [hs]
      omega
    have hmv : (DArray_move d (t : Int)).2 = movePost d t := by
      rw [DArray_move_ok d (t : Int) (by omega)]
      rw [htn]
    rw [hmv]
    obtain ⟨m1, m2, m3, m4, m5, m6, m7, m8, m9⟩ := movePost_spec d t hInv.1
    have mInv := movePost_DInv d t hInv
    obtain ⟨w1, w2, w3, w4, w5, w6, w7⟩ :=
      unshiftWrite_spec (movePost d t) v (by rw [m1]; exact ht1) mInv
    refine ⟨rfl, ?_, ?_, ?_, w1, ?_, ?_⟩
    · rw [w3, m2]
    · rw [w4, m3]
    · rw [w5, m4]
    · rw [w2, m1]
      exact w6
    · intro i hi
      rw [w2, m1]
      have harith : t - 1 + 1 + i = t + i := by omega
      rw [harith]
      rw [w7 (t + i) (by rw [m1]; omega)]
      rw [hs] at m8
      have := m8 i (by rw [← m2] at hi; rw [m2] at hi; exact hi)
      rw [m8 i hi]
      rw [hs]
  · rw [unshift_eq_pool d v hs]
    obtain ⟨w1, w2, w3, w4, w5, w6, w7⟩ :=
      unshiftWrite_spec d v (by omega) hInv
    refine ⟨rfl, w3, w4, w5, w1, ?_, ?_⟩
    · rw [w2]
      exact w6
    · intro i hi
      rw [w2]
      have harith : d.start_index - 1 + 1 + i = d.start_index + i := by omega
      rw [harith]
      exact w7 (d.start_index + i) (by omega)

/-! ### Lemmas about `DArray_shift` -/

theorem shiftRemove_spec (d : DArray α) (h : ¬ d.length = 0) (hInv : DInv d) :
    DInv (shiftRemove d) ∧
    (shiftRemove d).start_index = d.start_index + 1 ∧
    (shiftRemove d).length = d.length - 1 ∧
    (shiftRemove d).expand_rate = d.expand_rate ∧
    (shiftRemove d).max_pool_size = d.max_pool_size ∧
    (∀ i, i < d.length - 1 →
      (shiftRemove d).slot (d.start_index + 1 + i) = d.slot (d.start_index + 1 + i)) := by
  obtain ⟨h1, h2, h3⟩ := hInv
  refine ⟨⟨?_, ?_, ?_⟩, rfl, rfl, rfl, rfl, ?_⟩
  · show (d.items.set d.start_index none).length = d.store_size
    rw [List.length_set]
    exact h1
  · show d.start_index + 1 + (d.length - 1) ≤ d.store_size
    omega
  · show ∀ j, (j < d.start_index + 1 ∨ d.start_index + 1 + (d.length - 1) ≤ j) →
      (d.items.set d.start_index none).getD j none = none
    intro j hj
    by_cases hje : j = d.start_index
    · subst hje
      exact getD_set_self _ _ _ (by omega)
    · rw [getD_set_ne _ _ _ _ (Ne.symm hje)]
      exact h3 j (by omega)
  · intro i hi
    show (d.items.set d.start_index none).getD (d.start_index + 1 + i) none
      = d.slot (d.start_index + 1 + i)
    rw [getD_set_ne _ _ _ _ (by omega)]
    rfl

theorem shift_empty (d : DArray α) (h : d.length = 0) :
    DArray_shift d = (none, DA_ERR_ARGS, d) := by
  rw [DArray_shift, if_pos h]

theorem shift_eq_fast (d : DArray α) (h : ¬ d.length = 0)
    (hc : ((shiftRemove d).start_index : ℚ) ≤ d.max_pool_size * ((shiftRemove d).length : ℚ)) :
    DArray_shift d = (d.slot d.start_index, 0, shiftRemove d) := by
  rw [DArray_shift, if_neg h]
  simp only [if_pos hc]

theorem shift_eq_slow (d : DArray α) (h : ¬ d.length = 0)
    (hc : ¬ ((shiftRemove d).start_index : ℚ) ≤ d.max_pool_size * ((shiftRemove d).length : ℚ)) :
    DArray_shift d = (d.slot d.start_index,
      (DArray_move (shiftRemove d)
        (((Rat.floor (d.max_pool_size * ((shiftRemove d).length : ℚ))).toNat : Int)
          - ((shiftRemove d).start_index : Int))).1,
      (DArray_move (shiftRemove d)
        (((Rat.floor (d.max_pool_size * ((shiftRemove d).length : ℚ))).toNat : Int)
          - ((shiftRemove d).start_index : Int))).2) := by
  rw [DArray_shift, if_neg h]
  simp only [if_neg hc]

theorem shift_spec (d : DArray α) (h : ¬ d.length = 0) (hInv : DInv d) :
    (DArray_shift d).1 = d.slot d.start_index ∧
    (DArray_shift d).2.1 = 0 ∧
    (DArray_shift d).2.2.length = d.length - 1 ∧
    DInv (DArray_shift d).2.2 := by
  obtain ⟨hR, hRs, hRl, hRe, hRm, hRw⟩ := shiftRemove_spec d h hInv
  by_cases hc : ((shiftRemove d).start_index : ℚ) ≤ d.max_pool_size * ((shiftRemove d).length : ℚ)
  · rw [shift_eq_fast d h hc]
    exact ⟨rfl, rfl, hRl, hR⟩
  · rw [shift_eq_slow d h hc]
    set p : Nat := (Rat.floor (d.max_pool_size * ((shiftRemove d).length : ℚ))).toNat with hp
    have hmv : DArray_move (shiftRemove d) ((p : Int) - ((shiftRemove d).start_index : Int))
        = (0, movePost (shiftRemove d) p) := by
      rw [DArray_move_ok (shiftRemove d) _ (by omega)]
      have : (((shiftRemove d).start_index : Int)
          + ((p : Int) - ((shiftRemove d).start_index : Int))).toNat = p := by omega
      rw [this]
    rw [hmv]
    obtain ⟨m1, m2, m3, m4, m5, m6, m7, m8, m9⟩ := movePost_spec (shiftRemove d) p hR.1
    refine ⟨rfl, rfl, ?_, movePost_DInv (shiftRemove d) p hR⟩
    rw [m2, hRl]

/-! ### The invariant holds in every reachable state -/

theorem reach_DInv (d : DArray α) (h : Reach d) : DInv d := by
  induction h with
  | init len mps er ps d hinit => exact init_DInv len mps er ps d hinit
  | expand d hd ih =>
    obtain ⟨h1, h2, h3⟩ := ih
    have hst := expand_store_lt d
    refine ⟨expand_items_length d h1, ?_, ?_⟩
    · rw [expand_start, expand_length]
      omega
    · intro j hj
      rw [expand_start, expand_length] at hj
      rcases Nat.lt_or_ge j d.store_size with hc | hc
      · rw [expand_slot_lt d h1 j hc]
        exact h3 j hj
      · exact expand_slot_ge d h1 j hc
  | move d dist hd hc ih =>
    by_cases hneg : (d.start_index : Int) + dist < 0
    · rw [DArray_move_reject d dist hneg]
      exact ih
    · rw [DArray_move_ok d dist (by omega)]
      exact movePost_DInv d _ ih
  | push d v hd hc ih => exact (push_spec d v ih).2.2.2.2.2.1
  | pop d hd ih =>
    by_cases hl : d.length = 0
    · rw [pop_empty d hl]
      exact ih
    · exact (pop_spec d hl ih).2.2.2.2.2.1
  | unshift d v hd hc ih => exact (unshift_spec d v ih).2.2.2.2.1
  | shift d hd hc ih =>
    by_cases hl : d.length = 0
    · rw [shift_empty d hl]
      exact ih
    · exact (shift_spec d hl ih).2.2.2

/-! ### Index lemma and a packaged specification of successful moves -/

theorem index_eq_slot (d : DArray α) (i : Nat) (h : d.start_index + i < d.store_size) :
    DArray_index d i = d.slot (d.start_index + i) := if_pos h

theorem move_ok_spec (d : DArray α) (dist : Int) (hInv : DInv d)
    (hd : 0 ≤ (d.start_index : Int) + dist) :
    (DArray_move d dist).1 = 0 ∧
    ((DArray_move d dist).2.start_index : Int) = (d.start_index : Int) + dist ∧
    (DArray_move d dist).2.length = d.length ∧
    DInv (DArray_move d dist).2 ∧
    (∀ i, i < d.length → DArray_index (DArray_move d dist).2 i = DArray_index d i) ∧
    (∀ j, d.start_index ≤ j ∧ j < d.start_index + d.length →
      (j < (DArray_move d dist).2.start_index ∨
        (DArray_move d dist).2.start_index + d.length ≤ j) →
      (DArray_move d dist).2.slot j = none) := by
  rw [DArray_move_ok d dist hd]
  obtain ⟨m1, m2, m3, m4, m5, m6, m7, m8, m9⟩ :=
    movePost_spec d ((d.start_index : Int) + dist).toNat hInv.1
  have hDI := movePost_DInv d ((d.start_index : Int) + dist).toNat hInv
  refine ⟨rfl, ?_, m2, hDI, ?_, ?_⟩
  · rw [m1]
    omega
  · intro i hi
    rw [index_eq_slot _ i
        (by show (movePost d ((d.start_index : Int) + dist).toNat).start_index + i
              < (movePost d ((d.start_index : Int) + dist).toNat).store_size
            rw [m1]
            omega),
      index_eq_slot d i (by have := hInv.2.1; omega)]
    rw [m1]
    exact m8 i hi
  · intro j hin hout
    rw [m1] at hout
    rw [m9 j hout]
    rw [if_pos hin]

/-! ### Helper facts for the claim theorems -/

theorem DInv_of_bounded (d : DArray α) (h1 : d.items.length = d.store_size)
    (h2 : d.start_index + d.length ≤ d.store_size)
    (h3 : ∀ j, j < d.store_size → (j < d.start_index ∨ d.start_index + d.length ≤ j) →
      d.slot j = none) : DInv d := by
  refine ⟨h1, h2, ?_⟩
  intro j hj
  rcases Nat.lt_or_ge j d.store_size with hc | hc
  · exact h3 j hc hj
  · exact slot_default d j (by omega)

theorem DA_ERR_ARGS_ne_zero : DA_ERR_ARGS ≠ 0 := by
  unfold DA_ERR_ARGS
  omega

theorem init_ok_of (len : Nat) (mps er : ℚ) (ps : Nat) (h1 : ¬ len = 0)
    (h2 : ¬ (mps < 0 ∨ 1 < mps)) (h3 : ¬ er ≤ 1)
    (h4 : ¬ (if mps = 0 then ps ≠ 0
              else ((len : ℚ) / mps < (ps : ℚ) ∨ len ≤ ps))) :
    DArray_init_with_pool α len mps er ps
      = Except.ok { length := 0, store_size := len, start_index := ps,
                    expand_rate := er, max_pool_size := mps,
                    items := List.replicate len none } := by
  unfold DArray_init_with_pool
  rw [if_neg h1, if_neg h2, if_neg h3, if_neg h4]

theorem init_with_pool_test_eq :
    DArray_init_with_pool Nat 10 (3/10) (3/2) 2 = Except.ok dInit := by
  have h4 : ¬ (if (3/10 : ℚ) = 0 then (2 : Nat) ≠ 0
      else (((10 : Nat) : ℚ) / (3/10) < ((2 : Nat) : ℚ) ∨ (10 : Nat) ≤ (2 : Nat))) := by
    rw [if_neg (show ¬ (3/10 : ℚ) = 0 by norm_num)]
    norm_num
  rw [init_ok_of 10 (3/10) (3/2) 2 (by norm_num) (by norm_num) (by norm_num) h4]
  rfl

theorem init_pool3_test_eq :
    DArray_init_with_pool Nat 10 (3/10) (3/2) 3 = Except.ok dPool3 := by
  have h4 : ¬ (if (3/10 : ℚ) = 0 then (3 : Nat) ≠ 0
      else (((10 : Nat) : ℚ) / (3/10) < ((3 : Nat) : ℚ) ∨ (10 : Nat) ≤ (3 : Nat))) := by
    rw [if_neg (show ¬ (3/10 : ℚ) = 0 by norm_num)]
    norm_num
  rw [init_ok_of 10 (3/10) (3/2) 3 (by norm_num) (by norm_num) (by norm_num) h4]
  rfl

theorem init_push_test_eq :
    DArray_init_with_pool Nat 10 (1/10) (3/2) 2 = Except.ok dPush := by
  have h4 : ¬ (if (1/10 : ℚ) = 0 then (2 : Nat) ≠ 0
      else (((10 : Nat) : ℚ) / (1/10) < ((2 : Nat) : ℚ) ∨ (10 : Nat) ≤ (2 : Nat))) := by
    rw [if_neg (show ¬ (1/10 : ℚ) = 0 by norm_num)]
    norm_num
  rw [init_ok_of 10 (1/10) (3/2) 2 (by norm_num) (by norm_num) (by norm_num) h4]
  rfl

theorem init_no_pool_test_eq :
    DArray_init_with_pool Nat 10 0 (3/2) 0
      = Except.ok { length := 0, store_size := 10, start_index := 0,
                    expand_rate := 3/2, max_pool_size := 0,
                    items := List.replicate 10 none } := by
  have h4 : ¬ (if (0 : ℚ) = 0 then (0 : Nat) ≠ 0
      else (((10 : Nat) : ℚ) / 0 < ((0 : Nat) : ℚ) ∨ (10 : Nat) ≤ (0 : Nat))) := by
    rw [if_pos rfl]
    simp
  rw [init_ok_of 10 0 (3/2) 0 (by norm_num) (by norm_num) (by norm_num) h4]

theorem ratFloor_eq (x : ℚ) (z : ℤ) (h1 : (z : ℚ) ≤ x) (h2 : x < (z : ℚ) + 1) :
    Rat.floor x = z := by
  have ha : z ≤ Rat.floor x := Rat.le_floor.mpr h1
  have hb : ¬ (z + 1 ≤ Rat.floor x) := by
    intro hcon
    have hcast := Rat.le_floor.mp hcon
    push_cast at hcast
    linarith
  omega

theorem ratFloor_toNat_le (x : ℚ) (hx : 0 ≤ x) : ((Rat.floor x).toNat : ℚ) ≤ x := by
  have h0 : 0 ≤ Rat.floor x := Rat.le_floor.mpr (by exact_mod_cast hx)
  have he : ((Rat.floor x).toNat : ℤ) = Rat.floor x := Int.toNat_of_nonneg h0
  have hfl : ((Rat.floor x : ℤ) : ℚ) ≤ x := Rat.le_floor.mp (le_refl _)
  calc ((Rat.floor x).toNat : ℚ) = (((Rat.floor x).toNat : ℤ) : ℚ) :=
        (Int.cast_natCast _).symm
    _ = ((Rat.floor x : ℤ) : ℚ) := by rw [he]
    _ ≤ x := hfl

/-! ### The claims -/

/-- C1: `init(10, 0.3, 1.5, 2)` succeeds and the result has `length = 0`,
`store_size = 10`, `start_index = 2` and all ten backing-store slots empty;
`init(10, 0.0, 1.5, 0)` succeeds with `start_index = 0`. -/
theorem init_test_configurations :
    DArray_init_with_pool Nat 10 (3/10) (3/2) 2 = Except.ok dInit ∧
    dInit.length = 0 ∧ dInit.store_size = 10 ∧ dInit.start_index = 2 ∧
    dInit.items = List.replicate 10 none ∧
    (DArray_init_with_pool Nat 10 0 (3/2) 0).map DArray.start_index = Except.ok 0 := by
  refine ⟨init_with_pool_test_eq, rfl, rfl, rfl, rfl, ?_⟩
  rw [init_no_pool_test_eq]
  rfl

/-- C2 counterexample: the construction `init(10, 0.3, 1.5, 2)` pinned by
`test_init_with_pool` succeeds with `store_size = 10` (the `length`
argument, not `length + pool_size = 12`), refuting the claimed store-size
formula (and its `length` field starts at 0, not at the `length`
argument). -/
theorem init_store_size_not_sum :
    ¬ (∀ (len ps : Nat) (mps er : ℚ) (d : DArray Nat),
        DArray_init_with_pool Nat len mps er ps = Except.ok d →
        d.store_size = len + ps ∧ d.length = len) := by
  intro hclaim
  exact absurd (hclaim 10 2 (3/10) (3/2) dInit init_with_pool_test_eq).1 (by decide)

/-- C2 amended: for every successful
`init(length, max_pool_size, expand_rate, pool_size)` the backing store is
allocated with `store_size` equal to the `length` argument, every slot
empty, `start_index = pool_size`, and the logical `length` field starting
at 0. -/
theorem init_fields (len : Nat) (mps er : ℚ) (ps : Nat) (d : DArray α)
    (h : DArray_init_with_pool α len mps er ps = Except.ok d) :
    d.store_size = len ∧ d.start_index = ps ∧ d.length = 0 ∧
    d.expand_rate = er ∧ d.max_pool_size = mps ∧
    d.items = List.replicate len none := by
  obtain ⟨hd, -⟩ := init_ok len mps er ps d h
  subst hd
  exact ⟨rfl, rfl, rfl, rfl, rfl, rfl⟩

/-- Witness for `init_fields` at the configuration of `test_init_with_pool`. -/
theorem init_fields_witness :
    dInit.store_size = 10 ∧ dInit.start_index = 2 ∧ dInit.length = 0 ∧
    dInit.expand_rate = 3/2 ∧ dInit.max_pool_size = 3/10 ∧
    dInit.items = List.replicate 10 none :=
  init_fields 10 (3/10) (3/2) 2 dInit init_with_pool_test_eq

/-- C8 counterexample: on the well-formed one-slot array `dTiny`
(`store_size = 1`, `expand_rate = 1.5`), Expand produces `store_size = 2`
(the guaranteed-progress minimum `store_size + 1`), not
`floor(1 * 1.5) = 1`. -/
theorem expand_not_plain_floor :
    ¬ (∀ d : DArray Nat,
        (DArray_expand d).2.store_size
          = (Rat.floor ((d.store_size : ℚ) * d.expand_rate)).toNat) := by
  intro hclaim
  have hfl : Rat.floor ((dTiny.store_size : ℚ) * dTiny.expand_rate) = 1 := by
    have hx : ((dTiny.store_size : ℚ)) * dTiny.expand_rate = 3/2 := by
      show ((1 : Nat) : ℚ) * (3/2) = 3/2
      norm_num
    rw [hx]
    exact ratFloor_eq (3/2) 1 (by norm_num) (by norm_num)
  have hsz : (DArray_expand dTiny).2.store_size
      = max (dTiny.store_size + 1)
          (Rat.floor ((dTiny.store_size : ℚ) * dTiny.expand_rate)).toNat := rfl
  have h := hclaim dTiny
  rw [hsz, hfl] at h
  have hst : dTiny.store_size = 1 := rfl
  rw [hst] at h
  omega

/-- C8 amended: one Expand sets `store_size` to
`max (store_size + 1) (floor (store_size * expand_rate))` — the floor value
whenever it exceeds `store_size`, but at least `store_size + 1` to guarantee
progress — preserving all existing slot contents and `start_index` and
filling the newly added tail slots with the empty marker. -/
theorem expand_spec_claim (d : DArray α) (hlen : d.items.length = d.store_size) :
    (DArray_expand d).1 = 0 ∧
    (DArray_expand d).2.store_size
      = max (d.store_size + 1) (Rat.floor ((d.store_size : ℚ) * d.expand_rate)).toNat ∧
    (d.store_size + 1 ≤ (Rat.floor ((d.store_size : ℚ) * d.expand_rate)).toNat →
      (DArray_expand d).2.store_size
        = (Rat.floor ((d.store_size : ℚ) * d.expand_rate)).toNat) ∧
    (DArray_expand d).2.start_index = d.start_index ∧
    (∀ j, j < d.store_size → (DArray_expand d).2.slot j = d.slot j) ∧
    (∀ j, d.store_size ≤ j → (DArray_expand d).2.slot j = none) := by
  refine ⟨rfl, rfl, ?_, rfl, expand_slot_lt d hlen, expand_slot_ge d hlen⟩
  intro hge
  rw [expand_store_size]
  omega

/-- Witness for `expand_spec_claim` on the test array: `store_size` 10 grows
to `floor(10 * 1.5) = 15`. -/
theorem expand_spec_claim_witness :
    (DArray_expand dInit).1 = 0 ∧
    (DArray_expand dInit).2.store_size
      = max (dInit.store_size + 1)
          (Rat.floor ((dInit.store_size : ℚ) * dInit.expand_rate)).toNat ∧
    (dInit.store_size + 1
        ≤ (Rat.floor ((dInit.store_size : ℚ) * dInit.expand_rate)).toNat →
      (DArray_expand dInit).2.store_size
        = (Rat.floor ((dInit.store_size : ℚ) * dInit.expand_rate)).toNat) ∧
    (DArray_expand dInit).2.start_index = dInit.start_index ∧
    (∀ j, j < dInit.store_size → (DArray_expand dInit).2.slot j = dInit.slot j) ∧
    (∀ j, dInit.store_size ≤ j → (DArray_expand dInit).2.slot j = none) :=
  expand_spec_claim dInit (by decide)

/-- C9: on an empty array, Pop and Shift return the empty marker, Shift
additionally signals a non-zero (empty-container) result code, and the
array is left completely unchanged — in particular `length` is not
decremented. -/
theorem pop_shift_empty_noop (d : DArray α) (h : d.length = 0) :
    DArray_pop d = (none, d) ∧
    (DArray_shift d).1 = none ∧
    (DArray_shift d).2.1 ≠ 0 ∧
    (DArray_shift d).2.2 = d := by
  rw [pop_empty d h, shift_empty d h]
  exact ⟨rfl, rfl, DA_ERR_ARGS_ne_zero, rfl⟩

/-- Witness for `pop_shift_empty_noop` on the freshly initialised test
array. -/
theorem pop_shift_empty_noop_witness :
    DArray_pop dInit = (none, dInit) ∧
    (DArray_shift dInit).1 = none ∧
    (DArray_shift dInit).2.1 ≠ 0 ∧
    (DArray_shift dInit).2.2 = dInit :=
  pop_shift_empty_noop dInit (by decide)

/-- C10: with `start_index = 0`, a negative move is rejected: the result
code is non-zero and the array is returned unchanged, so `start_index`
stays 0 (no unsigned wrap-around), and elements and `length` are intact. -/
theorem move_past_head_rejected (d : DArray α) (dist : Int) (hs : d.start_index = 0)
    (hneg : dist < 0) :
    (DArray_move d dist).1 ≠ 0 ∧
    (DArray_move d dist).2 = d ∧
    (DArray_move d dist).2.start_index = 0 := by
  have h : (d.start_index : Int) + dist < 0 := by omega
  rw [DArray_move_reject d dist h]
  exact ⟨DA_ERR_ARGS_ne_zero, rfl, hs⟩

/-- Witness for `move_past_head_rejected`: `move(-1)` on the 3-element
no-pool array of `test_move_without_pool`. -/
theorem move_past_head_rejected_witness :
    (DArray_move dNoPool (-1)).1 ≠ 0 ∧
    (DArray_move dNoPool (-1)).2 = dNoPool ∧
    (DArray_move dNoPool (-1)).2.start_index = 0 :=
  move_past_head_rejected dNoPool (-1) (by decide) (by decide)

/-- C3: every state reachable by a successful `init` followed by any
sequence of successful operations keeps
`start_index + length ≤ store_size`, and every backing-store slot outside
the window `[start_index, start_index + length)` holds the empty marker. -/
theorem reach_window_invariant (d : DArray α) (h : Reach d) :
    d.start_index + d.length ≤ d.store_size ∧
    (∀ j, j < d.store_size → (j < d.start_index ∨ d.start_index + d.length ≤ j) →
      d.slot j = none) :=
  ⟨(reach_DInv d h).2.1, fun j _ hj => (reach_DInv d h).2.2 j hj⟩

/-- Witness for `reach_window_invariant`: the state after one push onto the
initial test array. -/
theorem reach_window_invariant_witness :
    (DArray_push dInit 7).2.start_index + (DArray_push dInit 7).2.length
        ≤ (DArray_push dInit 7).2.store_size ∧
    (∀ j, j < (DArray_push dInit 7).2.store_size →
      (j < (DArray_push dInit 7).2.start_index ∨
        (DArray_push dInit 7).2.start_index + (DArray_push dInit 7).2.length ≤ j) →
      (DArray_push dInit 7).2.slot j = none) :=
  reach_window_invariant (DArray_push dInit 7).2
    (Reach.push dInit 7 (Reach.init 10 (3/10) (3/2) 2 dInit init_with_pool_test_eq) rfl)

/-- C4: unshifting `a`, then `b`, then `c` (in that order) yields logical
order `[c, b, a]`: `index 0 = c`, `index 1 = b`, `index 2 = a`. -/
theorem unshift_three_order (d : DArray α) (a b c : α) (hInv : DInv d) :
    DArray_index (DArray_unshift (DArray_unshift (DArray_unshift d a).2 b).2 c).2 0
      = some c ∧
    DArray_index (DArray_unshift (DArray_unshift (DArray_unshift d a).2 b).2 c).2 1
      = some b ∧
    DArray_index (DArray_unshift (DArray_unshift (DArray_unshift d a).2 b).2 c).2 2
      = some a := by
  obtain ⟨u1c, u1len, u1er, u1mp, u1I, u1slot, u1win⟩ := unshift_spec d a hInv
  obtain ⟨u2c, u2len, u2er, u2mp, u2I, u2slot, u2win⟩ :=
    unshift_spec (DArray_unshift d a).2 b u1I
  obtain ⟨u3c, u3len, u3er, u3mp, u3I, u3slot, u3win⟩ :=
    unshift_spec (DArray_unshift (DArray_unshift d a).2 b).2 c u2I
  obtain ⟨i1, i2, i3⟩ := u3I
  refine ⟨?_, ?_, ?_⟩
  · rw [index_eq_slot _ 0 (by omega)]
    exact u3slot
  · rw [index_eq_slot _ 1 (by omega)]
    exact (u3win 0 (by omega)).trans u2slot
  · rw [index_eq_slot _ 2 (by omega)]
    exact ((u3win 1 (by omega)).trans (u2win 0 (by omega))).trans u1slot

/-- Witness for `unshift_three_order` on the configuration of
`test_unshift_with_pool` (`init(10, 0.3, 1.5, 3)`). -/
theorem unshift_three_order_witness :
    DArray_index (DArray_unshift (DArray_unshift (DArray_unshift dPool3 100).2 200).2 300).2 0
      = some 300 ∧
    DArray_index (DArray_unshift (DArray_unshift (DArray_unshift dPool3 100).2 200).2 300).2 1
      = some 200 ∧
    DArray_index (DArray_unshift (DArray_unshift (DArray_unshift dPool3 100).2 200).2 300).2 2
      = some 100 :=
  unshift_three_order dPool3 100 200 300
    (DInv_of_bounded dPool3 (by decide) (by decide) (by decide))

/-- C5: pushing `a`, then `b`, then `c` and then popping three times
returns `c`, then `b`, then `a` (LIFO at the tail), and `length` returns to
its value before the three pushes. -/
theorem push_pop_roundtrip (d : DArray α) (a b c : α) (hInv : DInv d) :
    (DArray_pop (DArray_push (DArray_push (DArray_push d a).2 b).2 c).2).1 = some c ∧
    (DArray_pop (DArray_pop (DArray_push (DArray_push (DArray_push d a).2 b).2 c).2).2).1
      = some b ∧
    (DArray_pop (DArray_pop (DArray_pop
      (DArray_push (DArray_push (DArray_push d a).2 b).2 c).2).2).2).1 = some a ∧
    (DArray_pop (DArray_pop (DArray_pop
      (DArray_push (DArray_push (DArray_push d a).2 b).2 c).2).2).2).2.length = d.length := by
  obtain ⟨p1c, p1l, p1s, p1e, p1m, p1I, p1slot, p1pres⟩ := push_spec d a hInv
  obtain ⟨p2c, p2l, p2s, p2e, p2m, p2I, p2slot, p2pres⟩ :=
    push_spec (DArray_push d a).2 b p1I
  obtain ⟨p3c, p3l, p3s, p3e, p3m, p3I, p3slot, p3pres⟩ :=
    push_spec (DArray_push (DArray_push d a).2 b).2 c p2I
  have e1s : (DArray_push d a).2.start_index = d.start_index := p1s
  have e1l : (DArray_push d a).2.length = d.length + 1 := p1l
  have e2s : (DArray_push (DArray_push d a).2 b).2.start_index = d.start_index := by
    rw [p2s, e1s]
  have e2l : (DArray_push (DArray_push d a).2 b).2.length = d.length + 2 := by
    rw [p2l, e1l]
  have e3s : (DArray_push (DArray_push (DArray_push d a).2 b).2 c).2.start_index
      = d.start_index := by
    rw [p3s, e2s]
  have e3l : (DArray_push (DArray_push (DArray_push d a).2 b).2 c).2.length
      = d.length + 3 := by
    rw [p3l, e2l]
  rw [e1s, e1l] at p2slot p2pres
  rw [e2s, e2l] at p3slot p3pres
  obtain ⟨q3v, q3l, q3s, q3e, q3m, q3I, q3pres⟩ :=
    pop_spec (DArray_push (DArray_push (DArray_push d a).2 b).2 c).2 (by omega) p3I
  have e4s : (DArray_pop
      (DArray_push (DArray_push (DArray_push d a).2 b).2 c).2).2.start_index
      = d.start_index := by
    rw [q3s, e3s]
  have e4l : (DArray_pop
      (DArray_push (DArray_push (DArray_push d a).2 b).2 c).2).2.length
      = d.length + 2 := by
    rw [q3l, e3l]
    omega
  rw [e3s, e3l] at q3v q3pres
  obtain ⟨q4v, q4l, q4s, q4e, q4m, q4I, q4pres⟩ :=
    pop_spec (DArray_pop (DArray_push (DArray_push (DArray_push d a).2 b).2 c).2).2
      (by omega) q3I
  have e5s : (DArray_pop (DArray_pop
      (DArray_push (DArray_push (DArray_push d a).2 b).2 c).2).2).2.start_index
      = d.start_index := by
    rw [q4s, e4s]
  have e5l : (DArray_pop (DArray_pop
      (DArray_push (DArray_push (DArray_push d a).2 b).2 c).2).2).2.length
      = d.length + 1 := by
    rw [q4l, e4l]
    omega
  rw [e4s, e4l] at q4v q4pres
  obtain ⟨q5v, q5l, q5s, q5e, q5m, q5I, q5pres⟩ :=
    pop_spec (DArray_pop (DArray_pop
      (DArray_push (DArray_push (DArray_push d a).2 b).2 c).2).2).2 (by omega) q4I
  rw [e5s, e5l] at q5v
  refine ⟨?_, ?_, ?_, ?_⟩
  · rw [q3v]
    rw [show d.start_index + (d.length + 3) - 1 = d.start_index + (d.length + 2) from by omega]
    exact p3slot
  · rw [q4v]
    rw [show d.start_index + (d.length + 2) - 1 = d.start_index + (d.length + 1) from by omega]
    rw [q3pres (d.start_index + (d.length + 1)) (by omega)]
    rw [p3pres (d.start_index + (d.length + 1)) (by omega)]
    exact p2slot
  · rw [q5v]
    rw [show d.start_index + (d.length + 1) - 1 = d.start_index + d.length from by omega]
    rw [q4pres (d.start_index + d.length) (by omega)]
    rw [q3pres (d.start_index + d.length) (by omega)]
    rw [p3pres (d.start_index + d.length) (by omega)]
    rw [p2pres (d.start_index + d.length) (by omega)]
    exact p1slot
  · rw [q5l, e5l]
    omega

/-- Witness for `push_pop_roundtrip` on the configuration of `test_pop`
(`init(10, 0.1, 1.5, 2)`). -/
theorem push_pop_roundtrip_witness :
    (DArray_pop (DArray_push (DArray_push (DArray_push dPush 100).2 200).2 300).2).1
      = some 300 ∧
    (DArray_pop (DArray_pop
      (DArray_push (DArray_push (DArray_push dPush 100).2 200).2 300).2).2).1 = some 200 ∧
    (DArray_pop (DArray_pop (DArray_pop
      (DArray_push (DArray_push (DArray_push dPush 100).2 200).2 300).2).2).2).1
      = some 100 ∧
    (DArray_pop (DArray_pop (DArray_pop
      (DArray_push (DArray_push (DArray_push dPush 100).2 200).2 300).2).2).2).2.length
      = dPush.length :=
  push_pop_roundtrip dPush 100 200 300
    (DInv_of_bounded dPush (by decide) (by decide) (by decide))

/-- C7: a successful `Move(dist)` adds `dist` to `start_index`, never
changes `length`, relocates all `length` elements to their new physical
offsets preserving logical order, and clears the vacated old-window slots;
in particular `Move(+1)` followed by `Move(-2)` leaves `start_index` one
less than its original value with all elements intact. -/
theorem move_relocates_window (d : DArray α) (dist : Int) (hInv : DInv d)
    (hd : 0 ≤ (d.start_index : Int) + dist) :
    (DArray_move d dist).1 = 0 ∧
    ((DArray_move d dist).2.start_index : Int) = (d.start_index : Int) + dist ∧
    (DArray_move d dist).2.length = d.length ∧
    (∀ i, i < d.length → DArray_index (DArray_move d dist).2 i = DArray_index d i) ∧
    (∀ j, d.start_index ≤ j ∧ j < d.start_index + d.length →
      (j < (DArray_move d dist).2.start_index ∨
        (DArray_move d dist).2.start_index + d.length ≤ j) →
      (DArray_move d dist).2.slot j = none) ∧
    (1 ≤ d.start_index →
      (DArray_move (DArray_move d 1).2 (-2)).2.start_index + 1 = d.start_index ∧
      ∀ i, i < d.length →
        DArray_index (DArray_move (DArray_move d 1).2 (-2)).2 i = DArray_index d i) := by
  obtain ⟨c1, c2, c3, c4, c5, c6⟩ := move_ok_spec d dist hInv hd
  refine ⟨c1, c2, c3, c5, c6, ?_⟩
  intro hs1
  obtain ⟨p1, p2, p3, p4, p5, p6⟩ := move_ok_spec d 1 hInv (by omega)
  obtain ⟨q1, q2, q3, q4, q5, q6⟩ := move_ok_spec (DArray_move d 1).2 (-2) p4 (by omega)
  constructor
  · omega
  · intro i hi
    rw [q5 i (by omega)]
    exact p5 i hi

/-- Witness for `move_relocates_window`: `move(+1)` (then `move(-2)`) on the
3-element pooled array of `test_move_with_pool`. -/
theorem move_relocates_window_witness :
    (DArray_move dMove 1).1 = 0 ∧
    ((DArray_move dMove 1).2.start_index : Int) = (dMove.start_index : Int) + 1 ∧
    (DArray_move dMove 1).2.length = dMove.length ∧
    (∀ i, i < dMove.length →
      DArray_index (DArray_move dMove 1).2 i = DArray_index dMove i) ∧
    (∀ j, dMove.start_index ≤ j ∧ j < dMove.start_index + dMove.length →
      (j < (DArray_move dMove 1).2.start_index ∨
        (DArray_move dMove 1).2.start_index + dMove.length ≤ j) →
      (DArray_move dMove 1).2.slot j = none) ∧
    (1 ≤ dMove.start_index →
      (DArray_move (DArray_move dMove 1).2 (-2)).2.start_index + 1 = dMove.start_index ∧
      ∀ i, i < dMove.length →
        DArray_index (DArray_move (DArray_move dMove 1).2 (-2)).2 i = DArray_index dMove i) :=
  move_relocates_window dMove 1
    (DInv_of_bounded dMove (by decide) (by decide) (by decide)) (by decide)

/-- Non-negativity of the test pool ratio, used to discharge the pool-policy
hypothesis at a concrete state. -/
theorem dMove_mps_nonneg : 0 ≤ dMove.max_pool_size := by
  show (0 : ℚ) ≤ 1/10
  norm_num

/-- C6: for a non-empty array with a non-negative pool ratio, Shift removes
and returns the element at logical index 0 and decrements `length`; when the
post-removal head-pool/length ratio stays within `max_pool_size` it only
clears the slot at `start_index` and increments `start_index` by one (the
`shiftRemove` fast path), and otherwise it compacts the window toward
offset 0 via a negative Move to the target pool
`floor(max_pool_size * (length - 1))`, bringing the head pool back within
the `max_pool_size` policy. -/
theorem shift_removes_head (d : DArray α) (hlen : ¬ d.length = 0) (hInv : DInv d)
    (hmps : 0 ≤ d.max_pool_size) :
    (DArray_shift d).1 = d.slot d.start_index ∧
    (DArray_shift d).2.1 = 0 ∧
    (DArray_shift d).2.2.length = d.length - 1 ∧
    (((d.start_index + 1 : Nat) : ℚ) ≤ d.max_pool_size * ((d.length - 1 : Nat) : ℚ) →
      (DArray_shift d).2.2 = shiftRemove d) ∧
    (¬ ((d.start_index + 1 : Nat) : ℚ) ≤ d.max_pool_size * ((d.length - 1 : Nat) : ℚ) →
      (((Rat.floor (d.max_pool_size * ((d.length - 1 : Nat) : ℚ))).toNat : Int)
          - ((d.start_index + 1 : Nat) : Int) < 0 ∧
       (DArray_shift d).2.2
         = (DArray_move (shiftRemove d)
             (((Rat.floor (d.max_pool_size * ((d.length - 1 : Nat) : ℚ))).toNat : Int)
               - ((d.start_index + 1 : Nat) : Int))).2 ∧
       (DArray_shift d).2.2.start_index
         = (Rat.floor (d.max_pool_size * ((d.length - 1 : Nat) : ℚ))).toNat ∧
       ((DArray_shift d).2.2.start_index : ℚ)
         ≤ d.max_pool_size * ((d.length - 1 : Nat) : ℚ))) := by
  obtain ⟨hR, hRs, hRl, hRe, hRm, hRw⟩ := shiftRemove_spec d hlen hInv
  obtain ⟨s1, s2, s3, s4⟩ := shift_spec d hlen hInv
  refine ⟨s1, s2, s3, ?_, ?_⟩
  · intro hc
    have hc2 : ((shiftRemove d).start_index : ℚ)
        ≤ d.max_pool_size * ((shiftRemove d).length : ℚ) := hc
    rw [shift_eq_fast d hlen hc2]
  · intro hc
    have hc2 : ¬ ((shiftRemove d).start_index : ℚ)
        ≤ d.max_pool_size * ((shiftRemove d).length : ℚ) := hc
    have hx : (0 : ℚ) ≤ d.max_pool_size * ((d.length - 1 : Nat) : ℚ) :=
      mul_nonneg hmps (Nat.cast_nonneg _)
    have hple : ((Rat.floor (d.max_pool_size * ((d.length - 1 : Nat) : ℚ))).toNat : ℚ)
        ≤ d.max_pool_size * ((d.length - 1 : Nat) : ℚ) := ratFloor_toNat_le _ hx
    have hlt : (Rat.floor (d.max_pool_size * ((d.length - 1 : Nat) : ℚ))).toNat
        < d.start_index + 1 := by
      by_contra hcon
      push_neg at hcon
      apply hc
      calc ((d.start_index + 1 : Nat) : ℚ)
          ≤ ((Rat.floor (d.max_pool_size * ((d.length - 1 : Nat) : ℚ))).toNat : ℚ) := by
            exact_mod_cast hcon
        _ ≤ d.max_pool_size * ((d.length - 1 : Nat) : ℚ) := hple
    have hmv2 : (DArray_shift d).2.2
        = movePost (shiftRemove d)
            ((Rat.floor (d.max_pool_size * ((d.length - 1 : Nat) : ℚ))).toNat) := by
      rw [shift_eq_slow d hlen hc2]
      rw [DArray_move_ok (shiftRemove d) _ (by omega)]
      rw [show (((shiftRemove d).start_index : Int)
            + (((Rat.floor (d.max_pool_size * ((shiftRemove d).length : ℚ))).toNat : Int)
              - ((shiftRemove d).start_index : Int))).toNat
          = (Rat.floor (d.max_pool_size * ((shiftRemove d).length : ℚ))).toNat from by omega]
      rfl
    obtain ⟨m1, m2, m3, m4, m5, m6, m7, m8, m9⟩ :=
      movePost_spec (shiftRemove d)
        ((Rat.floor (d.max_pool_size * ((d.length - 1 : Nat) : ℚ))).toNat) hR.1
    have hstart : (DArray_shift d).2.2.start_index
        = (Rat.floor (d.max_pool_size * ((d.length - 1 : Nat) : ℚ))).toNat := by
      rw [hmv2]
      exact m1
    refine ⟨by omega, ?_, hstart, ?_⟩
    · rw [hmv2]
      rw [DArray_move_ok (shiftRemove d) _ (by omega)]
      rw [show (((shiftRemove d).start_index : Int)
            + (((Rat.floor (d.max_pool_size * ((d.length - 1 : Nat) : ℚ))).toNat : Int)
              - ((d.start_index + 1 : Nat) : Int))).toNat
          = (Rat.floor (d.max_pool_size * ((d.length - 1 : Nat) : ℚ))).toNat from by omega]
    · rw [hstart]
      exact hple

/-- Witness for `shift_removes_head`: the first shift of
`test_shift_with_pool` (3 elements, `start_index = 2`,
`max_pool_size = 0.1`). -/
theorem shift_removes_head_witness :
    (DArray_shift dMove).1 = dMove.slot dMove.start_index ∧
    (DArray_shift dMove).2.1 = 0 ∧
    (DArray_shift dMove).2.2.length = dMove.length - 1 ∧
    (((dMove.start_index + 1 : Nat) : ℚ)
        ≤ dMove.max_pool_size * ((dMove.length - 1 : Nat) : ℚ) →
      (DArray_shift dMove).2.2 = shiftRemove dMove) ∧
    (¬ ((dMove.start_index + 1 : Nat) : ℚ)
        ≤ dMove.max_pool_size * ((dMove.length - 1 : Nat) : ℚ) →
      (((Rat.floor (dMove.max_pool_size * ((dMove.length - 1 : Nat) : ℚ))).toNat : Int)
          - ((dMove.start_index + 1 : Nat) : Int) < 0 ∧
       (DArray_shift dMove).2.2
         = (DArray_move (shiftRemove dMove)
             (((Rat.floor (dMove.max_pool_size * ((dMove.length - 1 : Nat) : ℚ))).toNat : Int)
               - ((dMove.start_index + 1 : Nat) : Int))).2 ∧
       (DArray_shift dMove).2.2.start_index
         = (Rat.floor (dMove.max_pool_size * ((dMove.length - 1 : Nat) : ℚ))).toNat ∧
       ((DArray_shift dMove).2.2.start_index : ℚ)
         ≤ dMove.max_pool_size * ((dMove.length - 1 : Nat) : ℚ))) :=
  shift_removes_head dMove (by decide)
    (DInv_of_bounded dMove (by decide) (by decide) (by decide)) dMove_mps_nonneg
